import Mathlib

set_option maxRecDepth 1024

/-
Verification of the value-marshaling layer in crates/luajit/src/pushable.rs:
the Pushable trait and its scalar and composite implementations, shallowly
embedded over the observable Lua stack. The raw stack primitives of the VM
and the crate-level error path are external collaborators of this file and
are modelled after the specification, as noted on each such definition.
-/

/-- Values living on the Lua value stack, as observed through the
stack-manipulation primitives invoked by pushable.rs. The `error`
constructor is the script-level error value produced by the error-conversion
collaborator; the `table` constructor records the array-size hint passed to
table creation together with the raw integer-keyed entries assigned so far. -/
inductive LuaValue : Type where
  | nil : LuaValue
  | boolean : Bool → LuaValue
  | integer : Int → LuaValue
  | number : Float → LuaValue
  | str : List UInt8 → LuaValue
  | table : Nat → List (Int × LuaValue) → LuaValue
  | error : String → LuaValue

/-- The observable Lua stack of a `*mut State`: head of the list is the top
of the stack. -/
abbrev Stack := List LuaValue

/-- Modelled from the spec: push-nil primitive consumed from the VM
collaborator (`ffi::lua_pushnil`). -/
def lua_pushnil (s : Stack) : Stack :=
  LuaValue.nil :: s

/-- Modelled from the spec: push-boolean primitive consumed from the VM
collaborator (`ffi::lua_pushboolean`). -/
def lua_pushboolean (b : Bool) (s : Stack) : Stack :=
  LuaValue.boolean b :: s

/-- Modelled from the spec: push-integer primitive consumed from the VM
collaborator (`ffi::lua_pushinteger`), pushing the VM-native integer. -/
def lua_pushinteger (n : Int) (s : Stack) : Stack :=
  LuaValue.integer n :: s

/-- Modelled from the spec: push-float primitive consumed from the VM
collaborator (`ffi::lua_pushnumber`). -/
def lua_pushnumber (x : Float) (s : Stack) : Stack :=
  LuaValue.number x :: s

/-- Modelled from the spec: push-length-prefixed-bytes primitive consumed
from the VM collaborator (`ffi::lua_pushlstring`): exactly `len` bytes from
the given buffer are copied, with no null-termination, so embedded null
bytes are preserved. -/
def lua_pushlstring (bytes : List UInt8) (len : Nat) (s : Stack) : Stack :=
  LuaValue.str (bytes.take len) :: s

/-- Modelled from the spec: create-table primitive consumed from the VM
collaborator (`ffi::lua_createtable`), with `narr` the array-size hint. -/
def lua_createtable (narr : Nat) (nrec : Nat) (s : Stack) : Stack :=
  LuaValue.table narr [] :: s

/-- Raw assignment of key `k` to value `v` in a table entry list: replaces
an existing binding of `k`, otherwise appends the new binding. -/
def rawset : List (Int × LuaValue) → Int → LuaValue → List (Int × LuaValue)
  | [], k, v => [(k, v)]
  | (k', v') :: rest, k, v =>
    if k' = k then (k, v) :: rest else (k', v') :: rawset rest k v

/-- Raw lookup of key `i` in a table entry list. -/
def tableGet : List (Int × LuaValue) → Int → Option LuaValue
  | [], _ => none
  | (k, v) :: rest, i => if k = i then some v else tableGet rest i

/-- Modelled from the spec: raw-set-into-table primitive consumed from the
VM collaborator (`ffi::lua_rawseti`): pops the value on top of the stack and
stores it at integer key `key` of the table found at stack index `idx`.
pushable.rs only ever calls it with `idx = -2`, the slot directly below the
popped value; the model gives that case its C API meaning and leaves every
other invocation (undefined behaviour at the C level) as the identity. -/
def lua_rawseti (s : Stack) (idx : Int) (key : Int) : Stack :=
  if idx = -2 then
    match s with
    | v :: LuaValue.table hint entries :: rest =>
      LuaValue.table hint (rawset entries key v) :: rest
    | _ => s
  else s

/-- Trait implemented for types that can be pushed onto the Lua stack
(`Pushable` in pushable.rs). `push` consumes the value, pushes all its
values on the Lua stack, and returns the number of values that it pushed
(the c_int return of the Rust method), alongside the updated stack. -/
class Pushable (α : Type) where
  push : α → Stack → Stack × Int

/-- Signed `w`-bit machine integer of the Rust source, as its mathematical
value with the two-complement range bounds. -/
structure Signed (w : Nat) where
  val : Int
  lb : -(2 ^ (w - 1)) ≤ val
  ub : val < 2 ^ (w - 1)

/-- Unsigned `w`-bit machine integer of the Rust source, as its mathematical
value with its range bound. -/
structure Unsigned (w : Nat) where
  val : Nat
  isLt : val < 2 ^ w

abbrev i8 := Signed 8

abbrev i16 := Signed 16

abbrev i32 := Signed 32

abbrev i64 := Signed 64

abbrev u8 := Unsigned 8

abbrev u16 := Unsigned 16

abbrev u32 := Unsigned 32

abbrev u64 := Unsigned 64

/-- Rust `usize` on the 64-bit platform assumed throughout: same range as
`u64` but a distinct type (with its own `type_name`). -/
structure Usize where
  val : Nat
  isLt : val < 2 ^ 64

/-- Modelled from the spec: `ffi::Integer` (declared outside src/), the
native integer type of the VM — the pointer-sized signed integer of the
64-bit platform assumed throughout. -/
structure Integer where
  val : Int
  lb : -(2 ^ 63) ≤ val
  ub : val < 2 ^ 63

/-- Modelled from the spec: `ffi::Number` (declared outside src/), the
native floating-point type of the VM, a double-precision float. -/
abbrev Number := Float

/-- Rust `f32`. Every single-precision float embeds exactly into double
precision, so an `f32` value is represented here by its exact double image,
and the `as Number` widening cast of the source is the field projection. -/
structure f32 where
  toNumber : Float

/-- Rust `String`: an owned, growable UTF-8 byte buffer, represented by its
bytes. `String::len` is the byte length, and the buffer may contain null
bytes. -/
structure RString where
  bytes : List UInt8

/-- Rust `std::num::TryFromIntError`, the error of a failed checked integer
narrowing. -/
structure TryFromIntError where

/-- Display (`to_string`) of `TryFromIntError`, as produced by the Rust
standard library. -/
def TryFromIntError.toString (_ : TryFromIntError) : String :=
  "out of range integral type conversion attempted"

/-- Modelled from the spec: the crate error type (`crate::Error`, declared
outside src/) in the shape used by pushable.rs — a script-level error
carrying the source type name and the conversion failure description. -/
structure Error where
  typeName : String
  description : String

/-- Modelled from the spec: the `crate::Error::push_error` constructor
(declared outside src/), building the error from the offending type name
and the failure description. -/
def Error.push_error (name : String) (msg : String) : Error :=
  ⟨name, msg⟩

/-- Rust `std::error::Error` bound of the `Result` implementation: all the
model needs from it is the human-readable description (`Display`). -/
class StdError (ε : Type) where
  display : ε → String

/-- Modelled from the spec: displaying a crate error yields its type name
together with the failure description. -/
instance : StdError Error :=
  ⟨fun e => e.typeName ++ ": " ++ e.description⟩

/-- Modelled from the spec: `utils::push_error` (declared outside src/)
converts the error to its human-readable description and pushes exactly one
script-level error value, the reported count corresponding to that one
pushed value. -/
def push_error {ε : Type} [StdError ε] (err : ε) (s : Stack) : Stack × Int :=
  (LuaValue.error (StdError.display err) :: s, 1)

/-- Body of `impl Pushable for ()`. -/
def pushUnit (_ : Unit) (s : Stack) : Stack × Int :=
  (lua_pushnil s, 1)

instance : Pushable Unit :=
  ⟨pushUnit⟩

/-- Body of `impl Pushable for bool`. -/
def pushBool (b : Bool) (s : Stack) : Stack × Int :=
  (lua_pushboolean b s, 1)

instance : Pushable Bool :=
  ⟨pushBool⟩

/-- Body of `impl Pushable for Integer`. -/
def pushInteger (n : Integer) (s : Stack) : Stack × Int :=
  (lua_pushinteger n.val s, 1)

instance : Pushable Integer :=
  ⟨pushInteger⟩

/-- Widening `Into<Integer>` conversion of a narrow signed type, total
because the source range is contained in the range of `Integer`. -/
def Signed.intoInteger {w : Nat} (x : Signed w) (hw : (2 : Int) ^ (w - 1) ≤ 2 ^ 63) :
    Integer :=
  ⟨x.val, le_trans (neg_le_neg hw) x.lb, lt_of_lt_of_le x.ub hw⟩

/-- Widening `Into<Integer>` conversion of `u8`, total because the source
range is contained in the range of `Integer`. -/
def Unsigned.intoInteger {w : Nat} (x : Unsigned w) (hw : (2 : Int) ^ w ≤ 2 ^ 63) :
    Integer :=
  ⟨(x.val : Int), le_trans (by norm_num) (Int.natCast_nonneg x.val),
    lt_of_lt_of_le (by exact_mod_cast Int.ofNat_lt.mpr x.isLt) hw⟩

/-- Checked `TryInto<Integer>` conversion of a signed source type: succeeds
exactly when the value lies in the range of `Integer`. -/
def Signed.tryIntoInteger {w : Nat} (x : Signed w) : Except TryFromIntError Integer :=
  if h : -(2 ^ 63) ≤ x.val ∧ x.val < 2 ^ 63 then Except.ok ⟨x.val, h.1, h.2⟩
  else Except.error ⟨⟩

/-- Checked `TryInto<Integer>` conversion of an unsigned source type:
succeeds exactly when the value lies in the range of `Integer`. -/
def Unsigned.tryIntoInteger {w : Nat} (x : Unsigned w) : Except TryFromIntError Integer :=
  if h : (x.val : Int) < 2 ^ 63 then
    Except.ok ⟨(x.val : Int), le_trans (by norm_num) (Int.natCast_nonneg x.val), h⟩
  else Except.error ⟨⟩

/-- Checked `TryInto<Integer>` conversion of `usize`: succeeds exactly when
the value lies in the range of `Integer`. -/
def Usize.tryIntoInteger (x : Usize) : Except TryFromIntError Integer :=
  if h : (x.val : Int) < 2 ^ 63 then
    Except.ok ⟨(x.val : Int), le_trans (by norm_num) (Int.natCast_nonneg x.val), h⟩
  else Except.error ⟨⟩

/-- Body of `impl Pushable for Result<T, E>`. -/
def pushResult {α ε : Type} [Pushable α] [StdError ε] (r : Except ε α) (s : Stack) :
    Stack × Int :=
  match r with
  | Except.ok value => Pushable.push value s
  | Except.error err => push_error err s

instance {α : Type} {ε : Type} [Pushable α] [StdError ε] : Pushable (Except ε α) :=
  ⟨pushResult⟩

/-- Body of the push_into_integer instantiation for i8. -/
def pushI8 (x : i8) (s : Stack) : Stack × Int :=
  let n : Integer := x.intoInteger (by norm_num)
  Pushable.push n s

instance : Pushable i8 :=
  ⟨pushI8⟩

/-- Body of the push_into_integer instantiation for u8. -/
def pushU8 (x : u8) (s : Stack) : Stack × Int :=
  let n : Integer := x.intoInteger (by norm_num)
  Pushable.push n s

instance : Pushable u8 :=
  ⟨pushU8⟩

/-- Body of the push_into_integer instantiation for i16. -/
def pushI16 (x : i16) (s : Stack) : Stack × Int :=
  let n : Integer := x.intoInteger (by norm_num)
  Pushable.push n s

instance : Pushable i16 :=
  ⟨pushI16⟩

/-- Body of the push_try_into_integer instantiation for u16. -/
def pushU16 (x : u16) (s : Stack) : Stack × Int :=
  let n : Except Error Integer :=
    Except.mapError
      (fun err : TryFromIntError => Error.push_error "u16" err.toString)
      x.tryIntoInteger
  Pushable.push n s

instance : Pushable u16 :=
  ⟨pushU16⟩

/-- Body of the push_try_into_integer instantiation for i32. -/
def pushI32 (x : i32) (s : Stack) : Stack × Int :=
  let n : Except Error Integer :=
    Except.mapError
      (fun err : TryFromIntError => Error.push_error "i32" err.toString)
      x.tryIntoInteger
  Pushable.push n s

instance : Pushable i32 :=
  ⟨pushI32⟩

/-- Body of the push_try_into_integer instantiation for u32. -/
def pushU32 (x : u32) (s : Stack) : Stack × Int :=
  let n : Except Error Integer :=
    Except.mapError
      (fun err : TryFromIntError => Error.push_error "u32" err.toString)
      x.tryIntoInteger
  Pushable.push n s

instance : Pushable u32 :=
  ⟨pushU32⟩

/-- Body of the push_try_into_integer instantiation for i64. -/
def pushI64 (x : i64) (s : Stack) : Stack × Int :=
  let n : Except Error Integer :=
    Except.mapError
      (fun err : TryFromIntError => Error.push_error "i64" err.toString)
      x.tryIntoInteger
  Pushable.push n s

instance : Pushable i64 :=
  ⟨pushI64⟩

/-- Body of the push_try_into_integer instantiation for u64. -/
def pushU64 (x : u64) (s : Stack) : Stack × Int :=
  let n : Except Error Integer :=
    Except.mapError
      (fun err : TryFromIntError => Error.push_error "u64" err.toString)
      x.tryIntoInteger
  Pushable.push n s

instance : Pushable u64 :=
  ⟨pushU64⟩

/-- Body of the push_try_into_integer instantiation for usize. -/
def pushUsize (x : Usize) (s : Stack) : Stack × Int :=
  let n : Except Error Integer :=
    Except.mapError
      (fun err : TryFromIntError => Error.push_error "usize" err.toString)
      x.tryIntoInteger
  Pushable.push n s

instance : Pushable Usize :=
  ⟨pushUsize⟩

/-- Body of `impl Pushable for Number`. -/
def pushNumber (x : Number) (s : Stack) : Stack × Int :=
  (lua_pushnumber x s, 1)

instance : Pushable Number :=
  ⟨pushNumber⟩

/-- Body of `impl Pushable for f32`. -/
def pushF32 (x : f32) (s : Stack) : Stack × Int :=
  Pushable.push x.toNumber s

instance : Pushable f32 :=
  ⟨pushF32⟩

/-- Body of `impl Pushable for String`. -/
def pushRString (x : RString) (s : Stack) : Stack × Int :=
  (lua_pushlstring x.bytes x.bytes.length s, 1)

instance : Pushable RString :=
  ⟨pushRString⟩

/-- Body of `impl Pushable for Option<T>`. -/
def pushOption {α : Type} [Pushable α] (o : Option α) (s : Stack) : Stack × Int :=
  match o with
  | some t => Pushable.push t s
  | none => Pushable.push () s

instance {α : Type} [Pushable α] : Pushable (Option α) :=
  ⟨pushOption⟩

/-- The element loop of the `Vec<T>` implementation: for the `i`-th element
(0-based, as produced by `enumerate`), push the element, then raw-set it
into the table sitting below at 1-based key `i + 1`. -/
def pushElems {α : Type} [Pushable α] : List α → Nat → Stack → Stack
  | [], _, s => s
  | x :: xs, i, s =>
    pushElems xs (i + 1) (lua_rawseti (Pushable.push x s).1 (-2) ((i + 1 : Nat) : Int))

/-- Body of `impl Pushable for Vec<T>`. -/
def pushVec {α : Type} [Pushable α] (xs : List α) (s : Stack) : Stack × Int :=
  (pushElems xs 0 (lua_createtable xs.length 0 s), 1)

instance {α : Type} [Pushable α] : Pushable (List α) :=
  ⟨pushVec⟩

/-- Rust 1-member tuple `(A,)`. -/
structure T1 (α : Type) where
  a : α

/-- Rust 2-member tuple `(A, B)`. -/
structure T2 (α β : Type) where
  a : α
  b : β

/-- Rust 3-member tuple `(A, B, C)`. -/
structure T3 (α β γ : Type) where
  a : α
  b : β
  c : γ

/-- Body of the push_tuple instantiation of arity 1. -/
def pushT1 {α : Type} [Pushable α] (t : T1 α) (s : Stack) : Stack × Int :=
  ((Pushable.push t.a s).1, 1)

instance {α : Type} [Pushable α] : Pushable (T1 α) :=
  ⟨pushT1⟩

/-- Body of the push_tuple instantiation of arity 2. -/
def pushT2 {α β : Type} [Pushable α] [Pushable β] (t : T2 α β) (s : Stack) : Stack × Int :=
  ((Pushable.push t.b (Pushable.push t.a s).1).1, 2)

instance {α β : Type} [Pushable α] [Pushable β] : Pushable (T2 α β) :=
  ⟨pushT2⟩

/-- Body of the push_tuple instantiation of arity 3. -/
def pushT3 {α β γ : Type} [Pushable α] [Pushable β] [Pushable γ] (t : T3 α β γ)
    (s : Stack) : Stack × Int :=
  ((Pushable.push t.c (Pushable.push t.b (Pushable.push t.a s).1).1).1, 3)

instance {α β γ : Type} [Pushable α] [Pushable β] [Pushable γ] : Pushable (T3 α β γ) :=
  ⟨pushT3⟩

/-- Sequential member pushes of a tuple body: each member push is performed
in declaration order and its returned count is discarded, exactly as in the
expansion of the push_tuple macro. -/
def tuplePushAux : List (Stack → Stack × Int) → Stack → Stack
  | [], s => s
  | m :: ms, s => tuplePushAux ms (m s).1

/-- Modelled from the spec: the arity-k implementation generated by the
push_tuple macro, with the k members abstracted as their push actions in
declaration order. Each member is pushed in order, and the returned count is
the member count of the tuple (the value of the count macro of crate::macros,
declared outside src/, which per the spec equals the arity). -/
def tuplePush (ms : List (Stack → Stack × Int)) (s : Stack) : Stack × Int :=
  (tuplePushAux ms s, (ms.length : Int))

/-- A push implementation adds exactly as many stack slots as the count it
returns, on every input and every starting stack. -/
def pushAddsCount (α : Type) [Pushable α] : Prop :=
  ∀ (x : α) (s : Stack),
    (((Pushable.push x s).1.length : Int)) = (s.length : Int) + (Pushable.push x s).2

/-- A push implementation pushes exactly one value on top of the given stack
and returns a count of 1, on every input and every starting stack. -/
def oneSlotPush (α : Type) [Pushable α] : Prop :=
  ∀ (x : α) (s : Stack), ∃ v : LuaValue, Pushable.push x s = (v :: s, 1)

/-- Table entries produced by assigning the given values at consecutive
integer keys starting from `k`. -/
def entriesFrom : Int → List LuaValue → List (Int × LuaValue)
  | _, [] => []
  | k, v :: vs => (k, v) :: entriesFrom (k + 1) vs

/-- Push equation for the unit implementation. -/
theorem push_unit_eq (s : Stack) :
    Pushable.push () s = (LuaValue.nil :: s, 1) := rfl

/-- Push equation for the boolean implementation. -/
theorem push_bool_eq (b : Bool) (s : Stack) :
    Pushable.push b s = (LuaValue.boolean b :: s, 1) := rfl

/-- Push equation for the native integer implementation. -/
theorem push_integer_eq (n : Integer) (s : Stack) :
    Pushable.push n s = (LuaValue.integer n.val :: s, 1) := rfl

/-- Push equation for the native float implementation. -/
theorem push_number_eq (x : Number) (s : Stack) :
    Pushable.push x s = (LuaValue.number x :: s, 1) := rfl

/-- Push equation for the single-precision float implementation. -/
theorem push_f32_eq (x : f32) (s : Stack) :
    Pushable.push x s = (LuaValue.number x.toNumber :: s, 1) := rfl

/-- Push equation for the string implementation: the full byte content is
pushed, since the length passed to the primitive is the byte length. -/
theorem push_rstring_eq (x : RString) (s : Stack) :
    Pushable.push x s = (LuaValue.str x.bytes :: s, 1) := by
  show (lua_pushlstring x.bytes x.bytes.length s, 1) = _
  simp [lua_pushlstring]

/-- Push equation for the widening i8 implementation. -/
theorem push_i8_eq (x : i8) (s : Stack) :
    Pushable.push x s = (LuaValue.integer x.val :: s, 1) := rfl

/-- Push equation for the widening u8 implementation. -/
theorem push_u8_eq (x : u8) (s : Stack) :
    Pushable.push x s = (LuaValue.integer (x.val : Int) :: s, 1) := rfl

/-- Push equation for the widening i16 implementation. -/
theorem push_i16_eq (x : i16) (s : Stack) :
    Pushable.push x s = (LuaValue.integer x.val :: s, 1) := rfl

/-- Push equation for the u16 implementation: the checked conversion always
succeeds, since every u16 value fits in the native integer. -/
theorem push_u16_eq (x : u16) (s : Stack) :
    Pushable.push x s = (LuaValue.integer (x.val : Int) :: s, 1) := by
  have h0 : ((x.val : Int)) < ((2 ^ 16 : Nat) : Int) := by exact_mod_cast x.isLt
  have h : ((x.val : Int)) < 2 ^ 63 := lt_of_lt_of_le h0 (by norm_num)
  show pushU16 x s = _
  unfold pushU16 Unsigned.tryIntoInteger
  rw [dif_pos h]
  rfl

/-- Push equation for the i32 implementation: the checked conversion always
succeeds, since every i32 value fits in the native integer. -/
theorem push_i32_eq (x : i32) (s : Stack) :
    Pushable.push x s = (LuaValue.integer x.val :: s, 1) := by
  have h : -(2 ^ 63) ≤ x.val ∧ x.val < 2 ^ 63 :=
    ⟨le_trans (by norm_num) x.lb, lt_of_lt_of_le x.ub (by norm_num)⟩
  show pushI32 x s = _
  unfold pushI32 Signed.tryIntoInteger
  rw [dif_pos h]
  rfl

/-- Push equation for the u32 implementation: the checked conversion always
succeeds, since every u32 value fits in the native integer. -/
theorem push_u32_eq (x : u32) (s : Stack) :
    Pushable.push x s = (LuaValue.integer (x.val : Int) :: s, 1) := by
  have h0 : ((x.val : Int)) < ((2 ^ 32 : Nat) : Int) := by exact_mod_cast x.isLt
  have h : ((x.val : Int)) < 2 ^ 63 := lt_of_lt_of_le h0 (by norm_num)
  show pushU32 x s = _
  unfold pushU32 Unsigned.tryIntoInteger
  rw [dif_pos h]
  rfl

/-- Push equation for the i64 implementation: the checked conversion always
succeeds, since the i64 range coincides with the native integer range. -/
theorem push_i64_eq (x : i64) (s : Stack) :
    Pushable.push x s = (LuaValue.integer x.val :: s, 1) := by
  have h : -(2 ^ 63) ≤ x.val ∧ x.val < 2 ^ 63 :=
    ⟨le_trans (by norm_num) x.lb, lt_of_lt_of_le x.ub (by norm_num)⟩
  show pushI64 x s = _
  unfold pushI64 Signed.tryIntoInteger
  rw [dif_pos h]
  rfl

/-- Push equation for a u64 value inside the native integer range. -/
theorem push_u64_eq_in (x : u64) (s : Stack) (h : (x.val : Int) < 2 ^ 63) :
    Pushable.push x s = (LuaValue.integer (x.val : Int) :: s, 1) := by
  show pushU64 x s = _
  unfold pushU64 Unsigned.tryIntoInteger
  rw [dif_pos h]
  rfl

/-- Push equation for a u64 value outside the native integer range: one
script-level error value is pushed, carrying the type name and the failure
description. -/
theorem push_u64_eq_out (x : u64) (s : Stack) (h : ¬ (x.val : Int) < 2 ^ 63) :
    Pushable.push x s =
      (LuaValue.error "u64: out of range integral type conversion attempted" :: s, 1) := by
  show pushU64 x s = _
  unfold pushU64 Unsigned.tryIntoInteger
  rw [dif_neg h]
  rfl

/-- Push equation for a usize value inside the native integer range. -/
theorem push_usize_eq_in (x : Usize) (s : Stack) (h : (x.val : Int) < 2 ^ 63) :
    Pushable.push x s = (LuaValue.integer (x.val : Int) :: s, 1) := by
  show pushUsize x s = _
  unfold pushUsize Usize.tryIntoInteger
  rw [dif_pos h]
  rfl

/-- Push equation for a usize value outside the native integer range: one
script-level error value is pushed, carrying the type name and the failure
description. -/
theorem push_usize_eq_out (x : Usize) (s : Stack) (h : ¬ (x.val : Int) < 2 ^ 63) :
    Pushable.push x s =
      (LuaValue.error "usize: out of range integral type conversion attempted" :: s, 1) := by
  show pushUsize x s = _
  unfold pushUsize Usize.tryIntoInteger
  rw [dif_neg h]
  rfl

/-- Push equation for the present case of the optional implementation. -/
theorem push_some_eq {α : Type} [Pushable α] (x : α) (s : Stack) :
    Pushable.push (some x) s = Pushable.push x s := rfl

/-- Push equation for the absent case of the optional implementation. -/
theorem push_none_eq {α : Type} [Pushable α] (s : Stack) :
    Pushable.push (none : Option α) s = Pushable.push () s := rfl

/-- Push equation for the success case of the fallible implementation. -/
theorem push_ok_eq {α ε : Type} [Pushable α] [StdError ε] (v : α) (s : Stack) :
    Pushable.push (Except.ok v : Except ε α) s = Pushable.push v s := rfl

/-- Push equation for the failure case of the fallible implementation. -/
theorem push_err_eq {α ε : Type} [Pushable α] [StdError ε] (e : ε) (s : Stack) :
    Pushable.push (Except.error e : Except ε α) s =
      (LuaValue.error (StdError.display e) :: s, 1) := rfl

/-- Push equation for the sequence implementation. -/
theorem push_list_eq {α : Type} [Pushable α] (xs : List α) (s : Stack) :
    Pushable.push xs s = (pushElems xs 0 (lua_createtable xs.length 0 s), 1) := rfl

/-- Push equation for the arity-1 tuple instantiation. -/
theorem push_t1_eq {α : Type} [Pushable α] (t : T1 α) (s : Stack) :
    Pushable.push t s = ((Pushable.push t.a s).1, 1) := rfl

/-- Push equation for the arity-2 tuple instantiation. -/
theorem push_t2_eq {α β : Type} [Pushable α] [Pushable β] (t : T2 α β) (s : Stack) :
    Pushable.push t s = ((Pushable.push t.b (Pushable.push t.a s).1).1, 2) := rfl

/-- Push equation for the arity-3 tuple instantiation. -/
theorem push_t3_eq {α β γ : Type} [Pushable α] [Pushable β] [Pushable γ]
    (t : T3 α β γ) (s : Stack) :
    Pushable.push t s =
      ((Pushable.push t.c (Pushable.push t.b (Pushable.push t.a s).1).1).1, 3) := rfl

/-- Raw assignment at a key absent from the entry list appends the binding. -/
theorem rawset_fresh (entries : List (Int × LuaValue)) (k : Int) (v : LuaValue)
    (h : ∀ p ∈ entries, p.1 ≠ k) :
    rawset entries k v = entries ++ [(k, v)] := by
  induction entries with
  | nil => rfl
  | cons p rest ih =>
    obtain ⟨k', v'⟩ := p
    have hk : k' ≠ k := h (k', v') (List.mem_cons_self _ _)
    simp only [rawset, if_neg hk, List.cons_append, List.cons.injEq, true_and]
    exact ih (fun q hq => h q (List.mem_cons_of_mem _ hq))

/-- Behaviour of the element loop of the sequence implementation when every
element push is a single-value push described by `f`: starting with the
table on top of the stack, the loop appends the converted elements at
consecutive keys and leaves the table on top, with nothing else changed. -/
theorem pushElems_spec {α : Type} [Pushable α] (f : α → LuaValue)
    (hf : ∀ (x : α) (s : Stack), Pushable.push x s = (f x :: s, 1))
    (xs : List α) :
    ∀ (i : Nat) (hint : Nat) (acc : List (Int × LuaValue)) (s : Stack),
      (∀ p ∈ acc, p.1 < (i : Int) + 1) →
      pushElems xs i (LuaValue.table hint acc :: s) =
        LuaValue.table hint (acc ++ entriesFrom ((i : Int) + 1) (xs.map f)) :: s := by
  induction xs with
  | nil =>
    intro i hint acc s hacc
    simp [pushElems, entriesFrom]
  | cons x xs ih =>
    intro i hint acc s hacc
    rw [pushElems, hf]
    have hfresh : ∀ p ∈ acc, p.1 ≠ ((i + 1 : Nat) : Int) := by
      intro p hp
      have := hacc p hp
      push_cast
      omega
    have hseti :
        lua_rawseti (f x :: LuaValue.table hint acc :: s) (-2) ((i + 1 : Nat) : Int) =
          LuaValue.table hint (acc ++ [(((i + 1 : Nat) : Int), f x)]) :: s := by
      rw [lua_rawseti, if_pos rfl, rawset_fresh _ _ _ hfresh]
    rw [hseti, ih (i + 1) hint (acc ++ [(((i + 1 : Nat) : Int), f x)]) s]
    · have hkey : (((i + 1 : Nat) : Int)) = (i : Int) + 1 := by push_cast; ring
      have hkey2 : (((i + 1 : Nat) : Int)) + 1 = (i : Int) + 1 + 1 := by push_cast; ring
      simp [entriesFrom, hkey, hkey2, List.append_assoc]
    · intro p hp
      rcases List.mem_append.mp hp with hp | hp
      · have := hacc p hp
        push_cast
        push_cast at this
        omega
      · have hp1 : p.1 = (i : Int) + 1 := by
          simp at hp
          rw [hp]
        rw [hp1]
        push_cast
        omega

/-- Behaviour of the element loop when every element push pushes exactly one
value: whatever the assignments, the loop keeps exactly the table on top of
the given stack. -/
theorem pushElems_table {α : Type} [Pushable α] (h1 : oneSlotPush α) (xs : List α) :
    ∀ (i hint : Nat) (acc : List (Int × LuaValue)) (s : Stack),
      ∃ entries, pushElems xs i (LuaValue.table hint acc :: s) =
        LuaValue.table hint entries :: s := by
  induction xs with
  | nil =>
    intro i hint acc s
    exact ⟨acc, rfl⟩
  | cons x xs ih =>
    intro i hint acc s
    obtain ⟨v, hv⟩ := h1 x (LuaValue.table hint acc :: s)
    rw [pushElems, hv]
    have hseti :
        lua_rawseti (v :: LuaValue.table hint acc :: s) (-2) ((i + 1 : Nat) : Int) =
          LuaValue.table hint (rawset acc ((i + 1 : Nat) : Int) v) :: s := by
      rw [lua_rawseti, if_pos rfl]
    rw [hseti]
    exact ih (i + 1) hint _ s

/-- Reading back the entries written at consecutive keys starting from `k`
recovers the written values. -/
theorem tableGet_entriesFrom (vs : List LuaValue) :
    ∀ (k : Int) (j : Nat) (hj : j < vs.length),
      tableGet (entriesFrom k vs) (k + (j : Int)) = some (vs.get ⟨j, hj⟩) := by
  induction vs with
  | nil =>
    intro k j hj
    simp at hj
  | cons v vs ih =>
    intro k j hj
    cases j with
    | zero => simp [entriesFrom, tableGet]
    | succ j =>
      have hne : ¬ (k = k + ((j + 1 : Nat) : Int)) := by push_cast; omega
      have hkey : k + ((j + 1 : Nat) : Int) = (k + 1) + (j : Int) := by push_cast; ring
      rw [entriesFrom, tableGet, if_neg hne, hkey,
        ih (k + 1) j (Nat.lt_of_succ_lt_succ hj)]
      rfl

/-- Sequentially performing single-value pushes leaves the pushed values on
the stack in reverse declaration order (first member deepest). -/
theorem tuplePushAux_single (vs : List LuaValue) :
    ∀ s : Stack,
      tuplePushAux (vs.map (fun v => fun t => ((v :: t : Stack), (1 : Int)))) s =
        vs.reverse ++ s := by
  induction vs with
  | nil => intro s; rfl
  | cons v vs ih =>
    intro s
    simp only [List.map_cons, tuplePushAux, ih (v :: s), List.reverse_cons,
      List.append_assoc, List.singleton_append]

/-- Sequentially performing member pushes that each push exactly one value
grows the stack by exactly the member count. -/
theorem tuplePushAux_length (ms : List (Stack → Stack × Int)) :
    (∀ m ∈ ms, ∀ t : Stack, ∃ v, m t = (v :: t, 1)) →
    ∀ s : Stack, (tuplePushAux ms s).length = s.length + ms.length := by
  induction ms with
  | nil =>
    intro _ s
    simp [tuplePushAux]
  | cons m ms ih =>
    intro hms s
    obtain ⟨v, hv⟩ := hms m (List.mem_cons_self _ _) s
    rw [tuplePushAux, hv]
    rw [ih (fun m' hm' => hms m' (List.mem_cons_of_mem _ hm')) (v :: s)]
    simp
    omega

/-- A push that always pushes exactly one value adds exactly as many slots
as the count 1 it returns. -/
theorem oneSlot_addsCount {α : Type} [Pushable α] (h : oneSlotPush α) :
    pushAddsCount α := by
  intro x s
  obtain ⟨v, hv⟩ := h x s
  rw [hv]
  push_cast [List.length_cons]
  ring

/-- The unit implementation pushes exactly one value. -/
theorem unit_oneSlot : oneSlotPush Unit :=
  fun x s => ⟨LuaValue.nil, by cases x; exact push_unit_eq s⟩

/-- The boolean implementation pushes exactly one value. -/
theorem bool_oneSlot : oneSlotPush Bool :=
  fun x s => ⟨LuaValue.boolean x, push_bool_eq x s⟩

/-- The native integer implementation pushes exactly one value. -/
theorem integer_oneSlot : oneSlotPush Integer :=
  fun x s => ⟨LuaValue.integer x.val, push_integer_eq x s⟩

/-- The native float implementation pushes exactly one value. -/
theorem number_oneSlot : oneSlotPush Number :=
  fun x s => ⟨LuaValue.number x, push_number_eq x s⟩

/-- The single-precision float implementation pushes exactly one value. -/
theorem f32_oneSlot : oneSlotPush f32 :=
  fun x s => ⟨LuaValue.number x.toNumber, push_f32_eq x s⟩

/-- The string implementation pushes exactly one value. -/
theorem rstring_oneSlot : oneSlotPush RString :=
  fun x s => ⟨LuaValue.str x.bytes, push_rstring_eq x s⟩

/-- The i8 implementation pushes exactly one value. -/
theorem i8_oneSlot : oneSlotPush i8 :=
  fun x s => ⟨LuaValue.integer x.val, push_i8_eq x s⟩

/-- The u8 implementation pushes exactly one value. -/
theorem u8_oneSlot : oneSlotPush u8 :=
  fun x s => ⟨LuaValue.integer (x.val : Int), push_u8_eq x s⟩

/-- The i16 implementation pushes exactly one value. -/
theorem i16_oneSlot : oneSlotPush i16 :=
  fun x s => ⟨LuaValue.integer x.val, push_i16_eq x s⟩

/-- The u16 implementation pushes exactly one value. -/
theorem u16_oneSlot : oneSlotPush u16 :=
  fun x s => ⟨LuaValue.integer (x.val : Int), push_u16_eq x s⟩

/-- The i32 implementation pushes exactly one value. -/
theorem i32_oneSlot : oneSlotPush i32 :=
  fun x s => ⟨LuaValue.integer x.val, push_i32_eq x s⟩

/-- The u32 implementation pushes exactly one value. -/
theorem u32_oneSlot : oneSlotPush u32 :=
  fun x s => ⟨LuaValue.integer (x.val : Int), push_u32_eq x s⟩

/-- The i64 implementation pushes exactly one value. -/
theorem i64_oneSlot : oneSlotPush i64 :=
  fun x s => ⟨LuaValue.integer x.val, push_i64_eq x s⟩

/-- The u64 implementation pushes exactly one value, the integer when in
range and the error value when out of range. -/
theorem u64_oneSlot : oneSlotPush u64 := by
  intro x s
  by_cases h : (x.val : Int) < 2 ^ 63
  · exact ⟨_, push_u64_eq_in x s h⟩
  · exact ⟨_, push_u64_eq_out x s h⟩

/-- The usize implementation pushes exactly one value, the integer when in
range and the error value when out of range. -/
theorem usize_oneSlot : oneSlotPush Usize := by
  intro x s
  by_cases h : (x.val : Int) < 2 ^ 63
  · exact ⟨_, push_usize_eq_in x s h⟩
  · exact ⟨_, push_usize_eq_out x s h⟩

/-- The sum of the individual counts of single-value member pushes is the
member count. -/
theorem map_sum_ones (vs : List LuaValue) (s : Stack) :
    ((vs.map (fun v => fun t => ((v :: t : Stack), (1 : Int)))).map
        (fun m => (m s).2)).sum = (vs.length : Int) := by
  induction vs with
  | nil => simp
  | cons v vs ih =>
    simp only [List.map_cons, List.sum_cons, ih, List.length_cons]
    push_cast
    ring

/-- Claim C7: for every scalar type with a lossless conversion — unit,
boolean, native integer, native float, single-precision float, text — and
for the widening narrow integer types i8, u8 and i16, pushing any
representable value, including zero and the extremes of the range, always
succeeds, pushes exactly one slot, returns 1, and preserves integer values
exactly. -/
theorem scalar_push_count_one :
    (∀ s : Stack, Pushable.push () s = (LuaValue.nil :: s, 1))
    ∧ (∀ (b : Bool) (s : Stack), Pushable.push b s = (LuaValue.boolean b :: s, 1))
    ∧ (∀ (n : Integer) (s : Stack), Pushable.push n s = (LuaValue.integer n.val :: s, 1))
    ∧ (∀ (x : Number) (s : Stack), Pushable.push x s = (LuaValue.number x :: s, 1))
    ∧ (∀ (x : f32) (s : Stack), Pushable.push x s = (LuaValue.number x.toNumber :: s, 1))
    ∧ (∀ (x : RString) (s : Stack), Pushable.push x s = (LuaValue.str x.bytes :: s, 1))
    ∧ (∀ (x : i8) (s : Stack), Pushable.push x s = (LuaValue.integer x.val :: s, 1))
    ∧ (∀ (x : u8) (s : Stack), Pushable.push x s = (LuaValue.integer (x.val : Int) :: s, 1))
    ∧ (∀ (x : i16) (s : Stack), Pushable.push x s = (LuaValue.integer x.val :: s, 1)) :=
  ⟨push_unit_eq, push_bool_eq, push_integer_eq, push_number_eq, push_f32_eq,
    push_rstring_eq, push_i8_eq, push_u8_eq, push_i16_eq⟩

/-- Claim C8: a text value is pushed as a length-prefixed byte string using
its exact byte length, so the full byte content is preserved, embedded null
bytes included, with exactly one slot pushed; in particular the bytes
0x00 0x61 0x62 survive unchanged, with no truncation at the null byte. -/
theorem string_push_preserves_bytes :
    (∀ (x : RString) (s : Stack),
      Pushable.push x s = (LuaValue.str x.bytes :: s, 1))
    ∧ Pushable.push (RString.mk [0, 97, 98]) ([] : Stack) =
        ([LuaValue.str [0, 97, 98]], 1) :=
  ⟨push_rstring_eq, push_rstring_eq (RString.mk [0, 97, 98]) ([] : Stack)⟩

/-- Claim C6: the fallible implementation delegates the success case to the
member push unchanged, and the failure case pushes exactly one script-level
error value carrying the human-readable description of the error, with no
part of any success value pushed. -/
theorem result_push_delegation :
    ∀ (α ε : Type) [Pushable α] [StdError ε] (s : Stack),
      (∀ v : α, Pushable.push (Except.ok v : Except ε α) s = Pushable.push v s)
      ∧ (∀ e : ε, Pushable.push (Except.error e : Except ε α) s =
          (LuaValue.error (StdError.display e) :: s, 1)) :=
  fun _ _ _ _ s => ⟨fun v => push_ok_eq v s, fun e => push_err_eq e s⟩

/-- Claim C3: for each narrowing integer type u16, i32, u32, i64, u64 and
usize, every value inside the native integer range is pushed with its
numeric value preserved and a count of 1, and every value outside the range
pushes exactly one script-level error value, carrying the source type name
and the conversion failure description, in place of the number. -/
theorem narrowing_push_spec :
    (∀ (x : u16) (s : Stack),
      Pushable.push x s = (LuaValue.integer (x.val : Int) :: s, 1))
    ∧ (∀ (x : i32) (s : Stack),
      Pushable.push x s = (LuaValue.integer x.val :: s, 1))
    ∧ (∀ (x : u32) (s : Stack),
      Pushable.push x s = (LuaValue.integer (x.val : Int) :: s, 1))
    ∧ (∀ (x : i64) (s : Stack),
      Pushable.push x s = (LuaValue.integer x.val :: s, 1))
    ∧ (∀ (x : u64) (s : Stack),
      ((x.val : Int) < 2 ^ 63 →
        Pushable.push x s = (LuaValue.integer (x.val : Int) :: s, 1))
      ∧ (2 ^ 63 ≤ (x.val : Int) →
        Pushable.push x s =
          (LuaValue.error "u64: out of range integral type conversion attempted" :: s, 1)))
    ∧ (∀ (x : Usize) (s : Stack),
      ((x.val : Int) < 2 ^ 63 →
        Pushable.push x s = (LuaValue.integer (x.val : Int) :: s, 1))
      ∧ (2 ^ 63 ≤ (x.val : Int) →
        Pushable.push x s =
          (LuaValue.error "usize: out of range integral type conversion attempted" :: s, 1))) := by
  refine ⟨push_u16_eq, push_i32_eq, push_u32_eq, push_i64_eq, ?_, ?_⟩
  · intro x s
    exact ⟨fun h => push_u64_eq_in x s h,
      fun h => push_u64_eq_out x s (not_lt.mpr h)⟩
  · intro x s
    exact ⟨fun h => push_usize_eq_in x s h,
      fun h => push_usize_eq_out x s (not_lt.mpr h)⟩

/-- Witness for claim C3, at the smallest out-of-range u64 value: exactly
one error value is pushed, with the type name and the failure description. -/
theorem narrowing_push_spec_witness :
    Pushable.push (⟨2 ^ 63, by norm_num⟩ : u64) ([] : Stack) =
      ([LuaValue.error "u64: out of range integral type conversion attempted"], 1) :=
  (narrowing_push_spec.2.2.2.2.1 (⟨2 ^ 63, by norm_num⟩ : u64) ([] : Stack)).2
    (by norm_num)

/-- Counterexample to claim C1: the arity-1 tuple whose member is an
arity-2 tuple of booleans pushes two stack slots while returning a count of
1, so its implementation does not push exactly as many slots as it
returns. -/
theorem push_count_invariant_counterexample :
    (Pushable.push (T1.mk (T2.mk true false)) ([] : Stack)).1.length = 2
    ∧ (Pushable.push (T1.mk (T2.mk true false)) ([] : Stack)).2 = 1
    ∧ ¬ pushAddsCount (T1 (T2 Bool Bool)) := by
  refine ⟨rfl, rfl, fun h => ?_⟩
  have h2 := h (T1.mk (T2.mk true false)) ([] : Stack)
  rw [push_t1_eq, push_t2_eq, push_bool_eq, push_bool_eq] at h2
  simp at h2

/-- Counterexample to claim C2: for the arity-2 tuple whose first member is
itself an arity-2 tuple of booleans, the returned push count is 2 while the
sum of the individual push counts of its two members is 3. -/
theorem tuple_sum_count_counterexample :
    (Pushable.push (T2.mk (T2.mk false true) false) ([] : Stack)).2 = 2
    ∧ (Pushable.push (T2.mk false true) ([] : Stack)).2
        + (Pushable.push false ([] : Stack)).2 = 3
    ∧ ¬ ((Pushable.push (T2.mk (T2.mk false true) false) ([] : Stack)).2 =
        (Pushable.push (T2.mk false true) ([] : Stack)).2
          + (Pushable.push false ([] : Stack)).2) := by
  refine ⟨rfl, rfl, fun h => ?_⟩
  simp only [push_t2_eq, push_bool_eq] at h
  norm_num at h

/-- Counterexample to claim C4: with the member type the arity-2 tuple of
booleans, pushing a present optional value pushes two slots, not exactly
one. -/
theorem option_push_one_slot_counterexample :
    (Pushable.push (some (T2.mk true true)) ([] : Stack)).1.length = 2
    ∧ ¬ (∃ v : LuaValue,
        (Pushable.push (some (T2.mk true true)) ([] : Stack)).1 = [v]) := by
  refine ⟨rfl, ?_⟩
  rintro ⟨v, hv⟩
  have h2 : ([LuaValue.boolean true, LuaValue.boolean true] : Stack) = [v] := hv
  simp at h2

/-- Claim C4 (amended): the present case delegates to the member push and
the absent case to the unit push, on every stack; the optional
implementation pushes exactly one slot whenever the member implementation
pushes exactly one slot, as every scalar implementation here does — while a
tuple member that pushes several slots makes the present case push that
many slots. -/
theorem option_push_delegation_amended :
    ∀ (α : Type) [Pushable α],
      (∀ (x : α) (s : Stack), Pushable.push (some x) s = Pushable.push x s)
      ∧ (∀ s : Stack, Pushable.push (none : Option α) s = Pushable.push () s)
      ∧ (oneSlotPush α → oneSlotPush (Option α)) := by
  intro α _
  refine ⟨fun x s => push_some_eq x s, fun s => push_none_eq s, fun h1 o s => ?_⟩
  cases o with
  | some t => exact h1 t s
  | none => exact ⟨LuaValue.nil, push_none_eq s⟩

/-- Witness for claim C4 at a concrete boolean input: the present case
equals the direct push and yields exactly one slot. -/
theorem option_push_delegation_amended_witness :
    Pushable.push (some false) ([] : Stack) = ([LuaValue.boolean false], 1) := by
  have _h1 := (option_push_delegation_amended Bool).2.2 bool_oneSlot
    (some false) ([] : Stack)
  have h2 := (option_push_delegation_amended Bool).1 false ([] : Stack)
  rw [h2, push_bool_eq]

/-- Claim C10 (implicit): for every tuple of arity 1 through 16, the count
returned by its push is exactly the syntactic member count, independent of
how many slots each member push added; concretely, the arity-2 tuple whose
first member is itself an arity-2 tuple returns 2 while pushing 3 slots, the
nested member contributing 1 to the count but 2 to the slots. -/
theorem tuple_count_is_arity :
    (∀ (ms : List (Stack → Stack × Int)) (s : Stack),
      1 ≤ ms.length → ms.length ≤ 16 → (tuplePush ms s).2 = (ms.length : Int))
    ∧ (Pushable.push (T2.mk (T2.mk true false) true) ([] : Stack)).2 = 2
    ∧ (Pushable.push (T2.mk (T2.mk true false) true) ([] : Stack)).1.length = 3 :=
  ⟨fun _ _ _ _ => rfl, rfl, rfl⟩

/-- Witness for claim C10 at a concrete member list of arity 2. -/
theorem tuple_count_is_arity_witness :
    (tuplePush [fun t => ((LuaValue.nil :: t : Stack), (1 : Int)),
      fun t => ((LuaValue.boolean true :: t : Stack), (1 : Int))] ([] : Stack)).2 = 2 :=
  tuple_count_is_arity.1 _ ([] : Stack) (by norm_num) (by norm_num)

/-- Claim C2 (amended): for every tuple of arity 1 through 16, the members
are pushed left-to-right in declaration order directly onto the stack, with
no wrapping table, and the returned count is the arity; whenever every
member push pushes exactly one value and returns 1, as every scalar
conversion defined here does, that arity also equals the sum of the members
individual push counts. -/
theorem tuple_push_order_amended :
    ∀ (vs : List LuaValue) (s : Stack), 1 ≤ vs.length → vs.length ≤ 16 →
      tuplePush (vs.map (fun v => fun t => ((v :: t : Stack), (1 : Int)))) s =
        (vs.reverse ++ s, (vs.length : Int))
      ∧ ((vs.map (fun v => fun t => ((v :: t : Stack), (1 : Int)))).map
          (fun m => (m s).2)).sum = (vs.length : Int) := by
  intro vs s _ _
  constructor
  · unfold tuplePush
    rw [tuplePushAux_single vs s]
    simp
  · exact map_sum_ones vs s

/-- Witness for claim C2 at a concrete two-member tuple: the two values end
up on the stack in declaration order, first member deepest, with count 2. -/
theorem tuple_push_order_amended_witness :
    tuplePush ([LuaValue.nil, LuaValue.boolean true].map
        (fun v => fun t => ((v :: t : Stack), (1 : Int)))) ([] : Stack) =
      ([LuaValue.boolean true, LuaValue.nil], 2) := by
  have h := (tuple_push_order_amended [LuaValue.nil, LuaValue.boolean true]
    ([] : Stack) (by norm_num) (by norm_num)).1
  simpa using h

/-- Claim C1 (amended): every scalar implementation pushes exactly as many
stack slots as the count it returns; the optional and fallible
implementations preserve that invariant of their member implementation; the
sequence implementation nets exactly the one returned slot whenever its
element pushes are single-value pushes, as every element conversion defined
here is; and a tuple body whose members each push exactly one value grows
the stack by exactly the returned member count — while a member pushing more
or fewer than one slot breaks the equality, the tuple count being the
syntactic arity. -/
theorem push_count_invariant_amended :
    (pushAddsCount Unit ∧ pushAddsCount Bool ∧ pushAddsCount Integer
      ∧ pushAddsCount Number ∧ pushAddsCount f32 ∧ pushAddsCount RString
      ∧ pushAddsCount i8 ∧ pushAddsCount u8 ∧ pushAddsCount i16
      ∧ pushAddsCount u16 ∧ pushAddsCount i32 ∧ pushAddsCount u32
      ∧ pushAddsCount i64 ∧ pushAddsCount u64 ∧ pushAddsCount Usize)
    ∧ ((∀ (α : Type) [Pushable α], pushAddsCount α → pushAddsCount (Option α))
      ∧ (∀ (α ε : Type) [Pushable α] [StdError ε],
          pushAddsCount α → pushAddsCount (Except ε α))
      ∧ (∀ (α : Type) [Pushable α], oneSlotPush α → pushAddsCount (List α))
      ∧ (∀ (ms : List (Stack → Stack × Int)) (s : Stack),
          (∀ m ∈ ms, ∀ t : Stack, ∃ v, m t = (v :: t, 1)) →
          ((tuplePush ms s).1.length : Int) =
            (s.length : Int) + (tuplePush ms s).2)) := by
  refine ⟨⟨oneSlot_addsCount unit_oneSlot, oneSlot_addsCount bool_oneSlot,
    oneSlot_addsCount integer_oneSlot, oneSlot_addsCount number_oneSlot,
    oneSlot_addsCount f32_oneSlot, oneSlot_addsCount rstring_oneSlot,
    oneSlot_addsCount i8_oneSlot, oneSlot_addsCount u8_oneSlot,
    oneSlot_addsCount i16_oneSlot, oneSlot_addsCount u16_oneSlot,
    oneSlot_addsCount i32_oneSlot, oneSlot_addsCount u32_oneSlot,
    oneSlot_addsCount i64_oneSlot, oneSlot_addsCount u64_oneSlot,
    oneSlot_addsCount usize_oneSlot⟩, ?_, ?_, ?_, ?_⟩
  · intro α _ h o s
    cases o with
    | some t =>
      rw [push_some_eq]
      exact h t s
    | none =>
      rw [push_none_eq, push_unit_eq]
      push_cast [List.length_cons]
      ring
  · intro α ε _ _ h r s
    cases r with
    | ok v =>
      rw [push_ok_eq]
      exact h v s
    | error e =>
      rw [push_err_eq]
      push_cast [List.length_cons]
      ring
  · intro α _ h1 xs s
    rw [push_list_eq]
    have h0 : lua_createtable xs.length 0 s = LuaValue.table xs.length [] :: s := rfl
    rw [h0]
    obtain ⟨entries, he⟩ := pushElems_table h1 xs 0 xs.length [] s
    rw [he]
    push_cast [List.length_cons]
    ring
  · intro ms s hms
    show ((tuplePushAux ms s).length : Int) = (s.length : Int) + (ms.length : Int)
    rw [tuplePushAux_length ms hms s]
    push_cast
    ring

/-- Witness for claim C1 at the sequence implementation over booleans: the
net slot growth of a concrete push equals the returned count. -/
theorem push_count_invariant_amended_witness :
    ((Pushable.push [true] ([] : Stack)).1.length : Int) =
      (([] : Stack).length : Int) + (Pushable.push [true] ([] : Stack)).2 :=
  push_count_invariant_amended.2.2.2.1 Bool bool_oneSlot [true] ([] : Stack)

/-- Claim C5: pushing a sequence of length N creates a table with N as the
array-size hint, assigns the element conversions in source order so that the
1-based key i holds the conversion of the i-th element, removes each
temporary element slot, and nets exactly one pushed slot — the table; and
reading back key i of the resulting table yields the conversion of the i-th
original element. Stated for element conversions that push exactly one
value, as the spec assumes and as every element conversion defined here
does. -/
theorem vec_push_table_roundtrip :
    ∀ (α : Type) [Pushable α] (f : α → LuaValue),
      (∀ (x : α) (s : Stack), Pushable.push x s = (f x :: s, 1)) →
      ∀ (xs : List α) (s : Stack),
        Pushable.push xs s =
          (LuaValue.table xs.length (entriesFrom 1 (xs.map f)) :: s, 1)
        ∧ ∀ (i : Nat) (hi : i < xs.length),
            tableGet (entriesFrom 1 (xs.map f)) ((i : Int) + 1) =
              some (f (xs.get ⟨i, hi⟩)) := by
  intro α _ f hf xs s
  constructor
  · rw [push_list_eq]
    have h0 : lua_createtable xs.length 0 s = LuaValue.table xs.length [] :: s := rfl
    rw [h0, pushElems_spec f hf xs 0 xs.length [] s (by simp)]
    norm_num
  · intro i hi
    have hlen : i < (xs.map f).length := by simpa using hi
    have h := tableGet_entriesFrom (xs.map f) 1 i hlen
    have hkey : (i : Int) + 1 = 1 + (i : Int) := by ring
    rw [hkey, h]
    congr 1
    simp [List.getElem_map]

/-- Witness for claim C5 at a concrete two-element boolean sequence: one
table slot is pushed, with hint 2 and the elements at keys 1 and 2. -/
theorem vec_push_table_roundtrip_witness :
    Pushable.push [true, false] ([] : Stack) =
      ([LuaValue.table 2 [(1, LuaValue.boolean true), (2, LuaValue.boolean false)]], 1) := by
  have h := (vec_push_table_roundtrip Bool LuaValue.boolean
    (fun x s => push_bool_eq x s) [true, false] ([] : Stack)).1
  simpa [entriesFrom] using h

/-- Claim C9: conversions are deterministic — the slots a narrowing push
adds and the count it returns depend only on the input value, not on the
starting stack — and idempotent on failure: repeating a failed narrowing
conversion with the same out-of-range input pushes the identical error value
again, the failure surfacing as a pushed script-level value rather than a
host fault. -/
theorem push_deterministic_idempotent :
    (∀ (x : u64) (s t : Stack),
      (Pushable.push x s).1.take 1 = (Pushable.push x t).1.take 1
      ∧ (Pushable.push x s).1.drop 1 = s
      ∧ (Pushable.push x s).2 = (Pushable.push x t).2)
    ∧ (∀ (x : Usize) (s t : Stack),
      (Pushable.push x s).1.take 1 = (Pushable.push x t).1.take 1
      ∧ (Pushable.push x s).1.drop 1 = s
      ∧ (Pushable.push x s).2 = (Pushable.push x t).2)
    ∧ (∀ (x : u64) (s : Stack), 2 ^ 63 ≤ (x.val : Int) →
      Pushable.push x s =
        (LuaValue.error "u64: out of range integral type conversion attempted" :: s, 1)
      ∧ Pushable.push x (Pushable.push x s).1 =
        (LuaValue.error "u64: out of range integral type conversion attempted" ::
          LuaValue.error "u64: out of range integral type conversion attempted" :: s, 1))
    ∧ (∀ (x : Usize) (s : Stack), 2 ^ 63 ≤ (x.val : Int) →
      Pushable.push x s =
        (LuaValue.error "usize: out of range integral type conversion attempted" :: s, 1)
      ∧ Pushable.push x (Pushable.push x s).1 =
        (LuaValue.error "usize: out of range integral type conversion attempted" ::
          LuaValue.error "usize: out of range integral type conversion attempted" :: s, 1)) := by
  refine ⟨?_, ?_, ?_, ?_⟩
  · intro x s t
    by_cases h : (x.val : Int) < 2 ^ 63
    · rw [push_u64_eq_in x s h, push_u64_eq_in x t h]
      exact ⟨rfl, rfl, rfl⟩
    · rw [push_u64_eq_out x s h, push_u64_eq_out x t h]
      exact ⟨rfl, rfl, rfl⟩
  · intro x s t
    by_cases h : (x.val : Int) < 2 ^ 63
    · rw [push_usize_eq_in x s h, push_usize_eq_in x t h]
      exact ⟨rfl, rfl, rfl⟩
    · rw [push_usize_eq_out x s h, push_usize_eq_out x t h]
      exact ⟨rfl, rfl, rfl⟩
  · intro x s h
    have h1 := push_u64_eq_out x s (not_lt.mpr h)
    refine ⟨h1, ?_⟩
    rw [h1]
    exact push_u64_eq_out x _ (not_lt.mpr h)
  · intro x s h
    have h1 := push_usize_eq_out x s (not_lt.mpr h)
    refine ⟨h1, ?_⟩
    rw [h1]
    exact push_usize_eq_out x _ (not_lt.mpr h)

/-- Witness for claim C9 at the smallest out-of-range u64 value: pushing it
twice in a row yields the identical error value both times. -/
theorem push_deterministic_idempotent_witness :
    Pushable.push (⟨2 ^ 63, by norm_num⟩ : u64)
        (Pushable.push (⟨2 ^ 63, by norm_num⟩ : u64) ([] : Stack)).1 =
      ([LuaValue.error "u64: out of range integral type conversion attempted",
        LuaValue.error "u64: out of range integral type conversion attempted"], 1) :=
  ((push_deterministic_idempotent.2.2.1 (⟨2 ^ 63, by norm_num⟩ : u64)
    ([] : Stack)) (by norm_num)).2
